import Mathlib

/-!
Verification development for the mouseMapper event-transformation engine.

The Rust sources are embedded shallowly:
* `src/engine/mapper.rs` — key-name codec (`parse_key_name`, `key_name`),
  `EventMapper::load_config` and `EventMapper::process_event`;
* `src/engine/macros.rs` — `MacroEngine` state (`active`, `toggle_state`),
  `start_macro`, `stop_macro`, `stop_all`, and the action interpreters
  `execute_action` / `execute_action_async` used by the macro tasks;
* `src/config.rs` — the configuration data model and
  `Config::build_binding_map` / `Config::build_macro_map`.

Machine integers are embedded as `Nat` (u16/u64 values stay far below any
overflow in the code paths modelled) and `Int` (the i32 event value).
Rust `HashMap`s are embedded by their contents; where the code iterates a
`HashMap` (whose iteration order is unspecified), the embedding is
parameterised by an arbitrary enumeration (permutation) of the entries.
-/

namespace MouseMapper

/-- ASCII uppercase of one character, as Rust's `to_uppercase` acts on the
ASCII key-name strings fed to `parse_key_name` (agrees with Unicode
uppercasing on ASCII). -/
def upChar (c : Char) : Char :=
  if 'a' ≤ c ∧ c ≤ 'z' then Char.ofNat (c.toNat - 32) else c

/-- `name.to_uppercase()` from `parse_key_name` (mapper.rs line 13). -/
def toUpperStr (s : String) : String :=
  ⟨s.data.map upChar⟩

/-- Does the string start with `"KEY_"` (mapper.rs line 29,
`name_upper.starts_with("KEY_")`). -/
def hasKeyPrefix (s : String) : Bool :=
  match s.data with
  | 'K' :: 'E' :: 'Y' :: '_' :: _ => true
  | _ => false

/-- Rust `name.parse::<u16>()` (mapper.rs line 120): an optional leading
`'+'`, then one or more ASCII digits, value fitting in `u16`; anything
else is an error. -/
def parseU16 (s : String) : Option Nat :=
  let cs := match s.data with
    | '+' :: rest => rest
    | other => other
  if cs ≠ [] ∧ cs.all Char.isDigit then
    let n := cs.foldl (fun n c => n * 10 + (c.toNat - 48)) 0
    if n < 65536 then some n else none
  else none

/-- `parse_key_name` from mapper.rs lines 10–127: resolve a key-name string
to a numeric evdev key code.  The numeric values are the Linux
input-event codes of the `evdev::KeyCode` constants named in the source
(`BTN_LEFT = 272`, …, `KEY_ESC = 1`, …). -/
def parse_key_name (name : String) : Option Nat :=
  let nameUpper := toUpperStr name
  match nameUpper with
  | "BTN_LEFT" => some 272
  | "BTN_MOUSE" => some 272
  | "BTN_RIGHT" => some 273
  | "BTN_MIDDLE" => some 274
  | "BTN_SIDE" => some 275
  | "BTN_EXTRA" => some 276
  | "BTN_FORWARD" => some 277
  | "BTN_BACK" => some 278
  | "BTN_TASK" => some 279
  | _ =>
    let prefixed := if hasKeyPrefix nameUpper then nameUpper else "KEY_" ++ nameUpper
    match prefixed with
    | "KEY_ESC" => some 1
    | "KEY_1" => some 2
    | "KEY_2" => some 3
    | "KEY_3" => some 4
    | "KEY_4" => some 5
    | "KEY_5" => some 6
    | "KEY_6" => some 7
    | "KEY_7" => some 8
    | "KEY_8" => some 9
    | "KEY_9" => some 10
    | "KEY_0" => some 11
    | "KEY_MINUS" => some 12
    | "KEY_EQUAL" => some 13
    | "KEY_BACKSPACE" => some 14
    | "KEY_TAB" => some 15
    | "KEY_Q" => some 16
    | "KEY_W" => some 17
    | "KEY_E" => some 18
    | "KEY_R" => some 19
    | "KEY_T" => some 20
    | "KEY_Y" => some 21
    | "KEY_U" => some 22
    | "KEY_I" => some 23
    | "KEY_O" => some 24
    | "KEY_P" => some 25
    | "KEY_LEFTBRACE" => some 26
    | "KEY_RIGHTBRACE" => some 27
    | "KEY_ENTER" => some 28
    | "KEY_LEFTCTRL" => some 29
    | "KEY_A" => some 30
    | "KEY_S" => some 31
    | "KEY_D" => some 32
    | "KEY_F" => some 33
    | "KEY_G" => some 34
    | "KEY_H" => some 35
    | "KEY_J" => some 36
    | "KEY_K" => some 37
    | "KEY_L" => some 38
    | "KEY_SEMICOLON" => some 39
    | "KEY_APOSTROPHE" => some 40
    | "KEY_GRAVE" => some 41
    | "KEY_LEFTSHIFT" => some 42
    | "KEY_BACKSLASH" => some 43
    | "KEY_Z" => some 44
    | "KEY_X" => some 45
    | "KEY_C" => some 46
    | "KEY_V" => some 47
    | "KEY_B" => some 48
    | "KEY_N" => some 49
    | "KEY_M" => some 50
    | "KEY_COMMA" => some 51
    | "KEY_DOT" => some 52
    | "KEY_SLASH" => some 53
    | "KEY_RIGHTSHIFT" => some 54
    | "KEY_LEFTALT" => some 56
    | "KEY_SPACE" => some 57
    | "KEY_CAPSLOCK" => some 58
    | "KEY_F1" => some 59
    | "KEY_F2" => some 60
    | "KEY_F3" => some 61
    | "KEY_F4" => some 62
    | "KEY_F5" => some 63
    | "KEY_F6" => some 64
    | "KEY_F7" => some 65
    | "KEY_F8" => some 66
    | "KEY_F9" => some 67
    | "KEY_F10" => some 68
    | "KEY_F11" => some 87
    | "KEY_F12" => some 88
    | "KEY_RIGHTCTRL" => some 97
    | "KEY_RIGHTALT" => some 100
    | "KEY_HOME" => some 102
    | "KEY_UP" => some 103
    | "KEY_PAGEUP" => some 104
    | "KEY_LEFT" => some 105
    | "KEY_RIGHT" => some 106
    | "KEY_END" => some 107
    | "KEY_DOWN" => some 108
    | "KEY_PAGEDOWN" => some 109
    | "KEY_INSERT" => some 110
    | "KEY_DELETE" => some 111
    | _ => parseU16 name

/-- `key_name` from mapper.rs lines 130–132: `format!("{:?}", key)`.
The `Debug` instance of `evdev::KeyCode` (external crate) prints the
canonical constant name of a known code; the spec (§4.1) calls this the
stable debug-style display string.  Codes outside the canonical table
print a non-symbolic fallback, modelled here by a string that
`parse_key_name` does not recognise. -/
def key_name (code : Nat) : String :=
  match code with
  | 272 => "BTN_LEFT"
  | 273 => "BTN_RIGHT"
  | 274 => "BTN_MIDDLE"
  | 275 => "BTN_SIDE"
  | 276 => "BTN_EXTRA"
  | 277 => "BTN_FORWARD"
  | 278 => "BTN_BACK"
  | 279 => "BTN_TASK"
  | 1 => "KEY_ESC"
  | 2 => "KEY_1"
  | 3 => "KEY_2"
  | 4 => "KEY_3"
  | 5 => "KEY_4"
  | 6 => "KEY_5"
  | 7 => "KEY_6"
  | 8 => "KEY_7"
  | 9 => "KEY_8"
  | 10 => "KEY_9"
  | 11 => "KEY_0"
  | 12 => "KEY_MINUS"
  | 13 => "KEY_EQUAL"
  | 14 => "KEY_BACKSPACE"
  | 15 => "KEY_TAB"
  | 16 => "KEY_Q"
  | 17 => "KEY_W"
  | 18 => "KEY_E"
  | 19 => "KEY_R"
  | 20 => "KEY_T"
  | 21 => "KEY_Y"
  | 22 => "KEY_U"
  | 23 => "KEY_I"
  | 24 => "KEY_O"
  | 25 => "KEY_P"
  | 26 => "KEY_LEFTBRACE"
  | 27 => "KEY_RIGHTBRACE"
  | 28 => "KEY_ENTER"
  | 29 => "KEY_LEFTCTRL"
  | 30 => "KEY_A"
  | 31 => "KEY_S"
  | 32 => "KEY_D"
  | 33 => "KEY_F"
  | 34 => "KEY_G"
  | 35 => "KEY_H"
  | 36 => "KEY_J"
  | 37 => "KEY_K"
  | 38 => "KEY_L"
  | 39 => "KEY_SEMICOLON"
  | 40 => "KEY_APOSTROPHE"
  | 41 => "KEY_GRAVE"
  | 42 => "KEY_LEFTSHIFT"
  | 43 => "KEY_BACKSLASH"
  | 44 => "KEY_Z"
  | 45 => "KEY_X"
  | 46 => "KEY_C"
  | 47 => "KEY_V"
  | 48 => "KEY_B"
  | 49 => "KEY_N"
  | 50 => "KEY_M"
  | 51 => "KEY_COMMA"
  | 52 => "KEY_DOT"
  | 53 => "KEY_SLASH"
  | 54 => "KEY_RIGHTSHIFT"
  | 56 => "KEY_LEFTALT"
  | 57 => "KEY_SPACE"
  | 58 => "KEY_CAPSLOCK"
  | 59 => "KEY_F1"
  | 60 => "KEY_F2"
  | 61 => "KEY_F3"
  | 62 => "KEY_F4"
  | 63 => "KEY_F5"
  | 64 => "KEY_F6"
  | 65 => "KEY_F7"
  | 66 => "KEY_F8"
  | 67 => "KEY_F9"
  | 68 => "KEY_F10"
  | 87 => "KEY_F11"
  | 88 => "KEY_F12"
  | 97 => "KEY_RIGHTCTRL"
  | 100 => "KEY_RIGHTALT"
  | 102 => "KEY_HOME"
  | 103 => "KEY_UP"
  | 104 => "KEY_PAGEUP"
  | 105 => "KEY_LEFT"
  | 106 => "KEY_RIGHT"
  | 107 => "KEY_END"
  | 108 => "KEY_DOWN"
  | 109 => "KEY_PAGEDOWN"
  | 110 => "KEY_INSERT"
  | 111 => "KEY_DELETE"
  | _ => "unknown key"

/-- The canonical symbolic-name table of the codec: the mouse-button names
and every `KEY_` name recognised by `parse_key_name` (mapper.rs lines
16–117). -/
def canonicalNames : List String :=
  ["BTN_LEFT", "BTN_MOUSE", "BTN_RIGHT", "BTN_MIDDLE", "BTN_SIDE",
   "BTN_EXTRA", "BTN_FORWARD", "BTN_BACK", "BTN_TASK",
   "KEY_ESC", "KEY_1", "KEY_2", "KEY_3", "KEY_4", "KEY_5", "KEY_6",
   "KEY_7", "KEY_8", "KEY_9", "KEY_0", "KEY_MINUS", "KEY_EQUAL",
   "KEY_BACKSPACE", "KEY_TAB", "KEY_Q", "KEY_W", "KEY_E", "KEY_R",
   "KEY_T", "KEY_Y", "KEY_U", "KEY_I", "KEY_O", "KEY_P",
   "KEY_LEFTBRACE", "KEY_RIGHTBRACE", "KEY_ENTER", "KEY_LEFTCTRL",
   "KEY_A", "KEY_S", "KEY_D", "KEY_F", "KEY_G", "KEY_H", "KEY_J",
   "KEY_K", "KEY_L", "KEY_SEMICOLON", "KEY_APOSTROPHE", "KEY_GRAVE",
   "KEY_LEFTSHIFT", "KEY_BACKSLASH", "KEY_Z", "KEY_X", "KEY_C",
   "KEY_V", "KEY_B", "KEY_N", "KEY_M", "KEY_COMMA", "KEY_DOT",
   "KEY_SLASH", "KEY_RIGHTSHIFT", "KEY_LEFTALT", "KEY_SPACE",
   "KEY_CAPSLOCK", "KEY_F1", "KEY_F2", "KEY_F3", "KEY_F4", "KEY_F5",
   "KEY_F6", "KEY_F7", "KEY_F8", "KEY_F9", "KEY_F10", "KEY_F11",
   "KEY_F12", "KEY_RIGHTCTRL", "KEY_RIGHTALT", "KEY_HOME", "KEY_UP",
   "KEY_PAGEUP", "KEY_LEFT", "KEY_RIGHT", "KEY_END", "KEY_DOWN",
   "KEY_PAGEDOWN", "KEY_INSERT", "KEY_DELETE"]

/-! ## Configuration data model (config.rs) -/

/-- `BindingOutput` from config.rs lines 51–58: remap to a key, or trigger
a named macro (`Macro { macro_name }`, constructor name adapted). -/
inductive BindingOutput where
  | key (key : String)
  | macroOut (macroName : String)
deriving DecidableEq, Repr

/-- `MacroType` from config.rs lines 79–88. -/
inductive MacroType where
  | repeatOnHold
  | sequence
  | toggle
deriving DecidableEq, Repr

/-- `MacroAction` from config.rs lines 90–101. -/
inductive MacroAction where
  | click (name : String)
  | press (name : String)
  | release (name : String)
  | delay (ms : Nat)
deriving DecidableEq, Repr

/-- `MacroDef` from config.rs lines 60–73.  `jitter_ms` is read by
macros.rs (`macro_def.jitter_ms`) and listed by the spec's MacroDef,
so it is part of the structure here. -/
structure MacroDef where
  name : String
  macroType : MacroType
  actions : List MacroAction
  intervalMs : Nat
  initialDelayMs : Nat
  jitterMs : Nat
deriving DecidableEq, Repr

/-- `Binding` from config.rs lines 43–49. -/
structure Binding where
  input : String
  output : BindingOutput
deriving DecidableEq, Repr

/-- `Profile` from config.rs lines 34–41. -/
structure Profile where
  name : String
  bindings : List Binding
  macros : List MacroDef
deriving DecidableEq, Repr

/-- `Config` from config.rs lines 6–20 (the `device` selector plays no
role in the claims and is omitted). -/
structure Config where
  profiles : List Profile
  active_profile : Option String
deriving DecidableEq, Repr

/-- `Config::active_profile` from config.rs lines 136–143. -/
def Config.getActiveProfile (c : Config) : Option Profile :=
  match c.active_profile with
  | some n => c.profiles.find? (fun p => p.name == n)
  | none => c.profiles.head?

/-- Insert-or-replace on an association list: the contents of a Rust
`HashMap` after `map.insert(k, v)` (the entry order of this list is an
artefact; code that iterates the map is parameterised by an arbitrary
permutation of the entries). -/
def assocInsert {κ β : Type} [DecidableEq κ] (k : κ) (v : β) :
    List (κ × β) → List (κ × β)
  | [] => [(k, v)]
  | (k', v') :: rest =>
    if k' = k then (k, v) :: rest else (k', v') :: assocInsert k v rest

/-- `Config::build_binding_map` from config.rs lines 155–164: fold the
active profile's binding list into a name-keyed map, later inserts
replacing earlier ones. -/
def Config.build_binding_map (c : Config) : List (String × BindingOutput) :=
  match c.getActiveProfile with
  | some p => p.bindings.foldl (fun m b => assocInsert b.input b.output m) []
  | none => []

/-- `Config::build_macro_map` from config.rs lines 166–175. -/
def Config.build_macro_map (c : Config) : List (String × MacroDef) :=
  match c.getActiveProfile with
  | some p => p.macros.foldl (fun m d => assocInsert d.name d m) []
  | none => []

/-! ## Macro engine state machine (macros.rs)

`MacroEngine.active` models the key set and `toggleState` the contents of
the two trigger-keyed `HashMap`s (a missing `toggle_state` entry reads as
`false` via `unwrap_or(false)`, so the map is embedded as its
total lookup function).  The model assumes a tokio runtime handle is
available (the engine always runs inside the runtime; the
no-runtime early return of `start_macro` is not represented).  Spawned
tasks are returned explicitly so that claims about task creation are
statable. -/

/-- Record of one `handle.spawn` performed by `start_macro`. -/
inductive SpawnedTask where
  | repeatTask (actions : List MacroAction) (intervalMs : Nat)
      (jitterMs : Nat) (initialDelay : Option Nat)
  | seqTask (actions : List MacroAction)
deriving DecidableEq, Repr

/-- The `MacroEngine` state from macros.rs lines 13–21: which triggers
have a live cancellation sender (`active`) and the toggle flags
(`toggle_state`). -/
structure MacroEngine where
  active : Nat → Bool
  toggleState : Nat → Bool

/-- Pointwise map update (`HashMap::insert` / `remove` on the key sets). -/
def setAt (f : Nat → Bool) (k : Nat) (b : Bool) : Nat → Bool :=
  fun x => if x = k then b else f x

/-- `MacroEngine::new` from macros.rs lines 24–31: both maps empty. -/
def MacroEngine.new : MacroEngine :=
  ⟨fun _ => false, fun _ => false⟩

/-- `MacroEngine::start_macro` from macros.rs lines 34–118, dispatching on
the macro type; returns the new state and the tasks spawned.  Every
branch of the source returns `Ok(())`. -/
def startMacro (s : MacroEngine) (trigger : Nat) (d : MacroDef) :
    Except String (MacroEngine × List SpawnedTask) :=
  match d.macroType with
  | .repeatOnHold =>
    if s.active trigger then
      .ok (s, [])
    else
      let initialDelay := if d.initialDelayMs > 0 then some d.initialDelayMs else none
      .ok ({ s with active := setAt s.active trigger true },
           [.repeatTask d.actions d.intervalMs d.jitterMs initialDelay])
  | .sequence =>
      .ok (s, [.seqTask d.actions])
  | .toggle =>
    if s.toggleState trigger then
      .ok ({ s with toggleState := setAt s.toggleState trigger false,
                    active := setAt s.active trigger false }, [])
    else
      .ok ({ s with toggleState := setAt s.toggleState trigger true,
                    active := setAt s.active trigger true },
           [.repeatTask d.actions d.intervalMs d.jitterMs none])

/-- `MacroEngine::stop_macro` from macros.rs lines 121–130: a no-op while
the toggle flag is set, otherwise cancel and remove the active entry. -/
def stopMacro (s : MacroEngine) (trigger : Nat) : MacroEngine :=
  if s.toggleState trigger then s
  else { s with active := setAt s.active trigger false }

/-- `MacroEngine::stop_all` from macros.rs lines 133–138: drain `active`,
clear `toggle_state`. -/
def stopAll (_ : MacroEngine) : MacroEngine :=
  ⟨fun _ => false, fun _ => false⟩

/-- The engine-state component of `startMacro` (whose `Result` is always
`Ok`). -/
def startMacroState (s : MacroEngine) (trigger : Nat) (d : MacroDef) : MacroEngine :=
  match startMacro s trigger d with
  | .ok (s', _) => s'
  | .error _ => s

/-! ## Macro action interpreters (macros.rs lines 141–249)

The observable behaviour of one macro task is embedded as a trace of
effects: emissions through the device writer and suspensions. -/

/-- One observable effect of a macro task. -/
inductive MacroEffect where
  | click (code : Nat)
  | press (code : Nat)
  | release (code : Nat)
  | sleep (ms : Nat)
deriving DecidableEq, Repr

/-- `execute_action` from macros.rs lines 202–237 (the blocking
interpreter): `Click`/`Press`/`Release` emit through the writer when the
key name parses (and are dropped otherwise); the `Delay` arm does
nothing — "Delays are handled in the async version". -/
def executeAction : MacroAction → List MacroEffect
  | .click n =>
    match parse_key_name n with
    | some c => [.click c]
    | none => []
  | .press n =>
    match parse_key_name n with
    | some c => [.press c]
    | none => []
  | .release n =>
    match parse_key_name n with
    | some c => [.release c]
    | none => []
  | .delay _ => []

/-- `execute_action_async` from macros.rs lines 240–249: `Delay(ms)`
suspends for `ms` milliseconds, everything else defers to
`execute_action`. -/
def executeActionAsync : MacroAction → List MacroEffect
  | .delay ms => [.sleep ms]
  | a => executeAction a

/-- One uncancelled pass of the inner action loop of `run_repeat_macro`
(macros.rs lines 159–166): every action goes through the blocking
`execute_action`. -/
def repeatBodyEffects (actions : List MacroAction) : List MacroEffect :=
  (actions.map executeAction).flatten

/-- The action walk of `run_sequence_macro` (macros.rs lines 195–199):
every action goes through `execute_action_async`. -/
def sequenceEffects (actions : List MacroAction) : List MacroEffect :=
  (actions.map executeActionAsync).flatten

/-! ## Event mapper (mapper.rs lines 134–237) -/

/-- `EventType::KEY` of the evdev protocol. -/
def EV_KEY : Nat := 1

/-- An `evdev::InputEvent` restricted to the fields the mapper reads and
writes: event type, code, and signed value (timestamps are never
consulted). -/
structure InputEvent where
  eventType : Nat
  code : Nat
  value : Int
deriving DecidableEq, Repr

/-- The `EventMapper` state from mapper.rs lines 136–143: the code-keyed
binding map, the macro definitions, and the macro engine.  The two
`HashMap`s are embedded by their contents as association lists. -/
structure EventMapper where
  bindings : List (Nat × BindingOutput)
  macroDefs : List (String × MacroDef)
  engine : MacroEngine

/-- `EventMapper::process_event` from mapper.rs lines 179–231. -/
def processEvent (m : EventMapper) (e : InputEvent) :
    Except String (EventMapper × List InputEvent) :=
  if e.eventType ≠ EV_KEY then
    .ok (m, [e])
  else
    let key := e.code
    let value := e.value
    match m.bindings.lookup key with
    | some (BindingOutput.key keyNameStr) =>
      match parse_key_name keyNameStr with
      | some targetKey => .ok (m, [⟨EV_KEY, targetKey, value⟩])
      | none => .ok (m, [e])
    | some (BindingOutput.macroOut macroName) =>
      match m.macroDefs.lookup macroName with
      | some macroDef =>
        if value = 1 then
          match startMacro m.engine key macroDef with
          | .ok (eng, _) => .ok ({ m with engine := eng }, [])
          | .error err => .error err
        else if value = 0 then
          .ok ({ m with engine := stopMacro m.engine key }, [])
        else
          .ok (m, [])
      | none => .ok (m, [e])
    | none => .ok (m, [e])

/-- Thread a list of events through `processEvent`, concatenating the
outputs (the supervisor's event loop feeds events one at a time). -/
def processEvents (m : EventMapper) : List InputEvent →
    Except String (EventMapper × List InputEvent)
  | [] => .ok (m, [])
  | e :: es =>
    match processEvent m e with
    | .ok (m', out) =>
      match processEvents m' es with
      | .ok (m'', outs) => .ok (m'', out ++ outs)
      | .error err => .error err
    | .error err => .error err

/-- `EventMapper::load_config`'s binding-map construction (mapper.rs lines
162–168): iterate the name-keyed map produced by `build_binding_map` —
in an unspecified `HashMap` order, hence the explicit `entries`
enumeration — parsing each name and inserting into the code-keyed map
(unparsable names are skipped). -/
def loadBindings (entries : List (String × BindingOutput)) :
    List (Nat × BindingOutput) :=
  entries.foldl
    (fun m p =>
      match parse_key_name p.1 with
      | some k => assocInsert k p.2 m
      | none => m) []

/-! ## Auxiliary notions used by the claims -/

/-- The two mapper-visible events of one macro trigger: a press
(`value = 1`, routed to `start_macro`) and a release (`value = 0`,
routed to `stop_macro`). -/
inductive TriggerEvent where
  | press
  | release
deriving DecidableEq, Repr

/-- One mapper dispatch for a macro-bound trigger (the `value = 1` and
`value = 0` arms of `process_event`'s macro branch). -/
def triggerStep (d : MacroDef) (t : Nat) (s : MacroEngine) :
    TriggerEvent → MacroEngine
  | .press => startMacroState s t d
  | .release => stopMacro s t

/-- Run a press/release history for one trigger through the engine. -/
def runTrigger (d : MacroDef) (t : Nat) (s : MacroEngine)
    (evts : List TriggerEvent) : MacroEngine :=
  evts.foldl (triggerStep d t) s

/-- Number of presses (`start_macro` calls) in a trigger history. -/
def pressCount (evts : List TriggerEvent) : Nat :=
  evts.countP (· == .press)

/-- The `MacroEngine` invariant of claim C10: an armed toggle always has a
live timer entry. -/
def ToggleActiveInv (s : MacroEngine) : Prop :=
  ∀ t, s.toggleState t = true → s.active t = true

/-- Example mapper state: one `Key` binding, `BTN_SIDE → KEY_A`. -/
def mapperKeyA : EventMapper :=
  ⟨[(275, BindingOutput.key "KEY_A")], [], MacroEngine.new⟩

/-- Example macro definition bound below as `"rapid"`. -/
def rapidDef : MacroDef :=
  ⟨"rapid", MacroType.repeatOnHold, [MacroAction.click "BTN_LEFT"], 50, 0, 0⟩

/-- Example mapper state: one `Macro` binding, `BTN_EXTRA → rapid`. -/
def mapperRapid : EventMapper :=
  ⟨[(276, BindingOutput.macroOut "rapid")], [("rapid", rapidDef)], MacroEngine.new⟩

/-- Example engine state whose trigger 276 has a live timer entry. -/
def engineActive276 : MacroEngine :=
  ⟨fun c => c == 276, fun _ => false⟩

/-- Example toggle-macro definition. -/
def toggleDef : MacroDef :=
  ⟨"toggle_fire", MacroType.toggle, [MacroAction.click "BTN_LEFT"], 100, 0, 0⟩

/-- A profile whose two bindings have distinct input names (`BTN_MOUSE`
and `BTN_LEFT`) that both resolve to code 272. -/
def cfgDup : Config :=
  ⟨[⟨"Default",
     [⟨"BTN_MOUSE", BindingOutput.key "KEY_A"⟩,
      ⟨"BTN_LEFT", BindingOutput.key "KEY_B"⟩], []⟩], some "Default"⟩

/-- An admissible iteration order of `cfgDup.build_binding_map` (the
name-keyed `HashMap` iterates in unspecified order) that visits
`"BTN_LEFT"` before `"BTN_MOUSE"`. -/
def enumDup : List (String × BindingOutput) :=
  [("BTN_LEFT", BindingOutput.key "KEY_B"),
   ("BTN_MOUSE", BindingOutput.key "KEY_A")]

/-- A profile that binds the same input name `BTN_SIDE` twice. -/
def profSame : Profile :=
  ⟨"Default",
   [⟨"BTN_SIDE", BindingOutput.key "KEY_A"⟩,
    ⟨"BTN_SIDE", BindingOutput.key "KEY_B"⟩], []⟩

/-- Configuration with `profSame` as the active profile. -/
def cfgSame : Config :=
  ⟨[profSame], some "Default"⟩

/-! ## Theorems -/

/-- C7: for every symbolic key name in the canonical table, parsing it
succeeds, and parsing the display string of the parsed code yields the
same code again — hence
`parse (key_name (parse name)) = parse name` on the whole table. -/
theorem keyNameRoundTrip :
    (canonicalNames.all fun n =>
      match parse_key_name n with
      | some c => parse_key_name (key_name c) == some c
      | none => false) = true := by decide

/-- C1: a KEY event whose code is bound to `Key{target}` with the target
name parsing to code `T` is mapped to exactly one output event
`(KEY, T, value)`, the mapper state unchanged. -/
theorem processEvent_keyBinding (m : EventMapper) (e : InputEvent)
    (tname : String) (T : Nat)
    (he : e.eventType = EV_KEY)
    (hb : m.bindings.lookup e.code = some (BindingOutput.key tname))
    (hp : parse_key_name tname = some T)
    (_hv : e.value = 0 ∨ e.value = 1 ∨ e.value = 2) :
    processEvent m e = .ok (m, [⟨EV_KEY, T, e.value⟩]) := by
  simp [processEvent, he, hb, hp]

/-- Witness for C1: `BTN_SIDE` (275) bound to `KEY_A` (30), press event. -/
theorem processEvent_keyBinding_witness :
    processEvent mapperKeyA ⟨EV_KEY, 275, 1⟩ =
      .ok (mapperKeyA, [⟨EV_KEY, 30, 1⟩]) :=
  processEvent_keyBinding mapperKeyA ⟨EV_KEY, 275, 1⟩ "KEY_A" 30
    rfl (by decide) (by decide) (by decide)

/-- Every branch of `start_macro` returns `Ok`. -/
theorem startMacro_isOk (s : MacroEngine) (t : Nat) (d : MacroDef) :
    ∃ r, startMacro s t d = .ok r := by
  unfold startMacro
  rcases d.macroType <;> dsimp only <;>
    first
    | (split <;> exact ⟨_, rfl⟩)
    | exact ⟨_, rfl⟩

/-- C3: a KEY event whose code is bound to a `Macro` whose name is present
in the macro map produces no output events, whatever its value. -/
theorem processEvent_macroBinding (m : EventMapper) (e : InputEvent)
    (mname : String) (d : MacroDef)
    (he : e.eventType = EV_KEY)
    (hb : m.bindings.lookup e.code = some (BindingOutput.macroOut mname))
    (hm : m.macroDefs.lookup mname = some d) :
    ∃ m', processEvent m e = .ok (m', []) := by
  by_cases h1 : e.value = 1
  · obtain ⟨⟨eng, tasks⟩, hs⟩ := startMacro_isOk m.engine e.code d
    exact ⟨{ m with engine := eng }, by simp [processEvent, he, hb, hm, h1, hs]⟩
  · by_cases h0 : e.value = 0
    · exact ⟨{ m with engine := stopMacro m.engine e.code },
        by simp [processEvent, he, hb, hm, h1, h0]⟩
    · exact ⟨m, by simp [processEvent, he, hb, hm, h1, h0]⟩

/-- Witness for C3: `BTN_EXTRA` (276) bound to macro `"rapid"`, autorepeat
event (`value = 2`). -/
theorem processEvent_macroBinding_witness :
    ∃ m', processEvent mapperRapid ⟨EV_KEY, 276, 2⟩ = .ok (m', []) :=
  processEvent_macroBinding mapperRapid ⟨EV_KEY, 276, 2⟩ "rapid" rapidDef
    rfl (by decide) (by decide)

/-- C9: `process_event` never returns an error, and its output list has at
most one element, for every mapper state and every input event. -/
theorem processEvent_total (m : EventMapper) (e : InputEvent) :
    ∃ m' out, processEvent m e = .ok (m', out) ∧ out.length ≤ 1 := by
  unfold processEvent
  by_cases hk : e.eventType ≠ EV_KEY
  · exact ⟨m, [e], by simp [hk], by simp⟩
  · simp only [hk, if_false]
    match hb : m.bindings.lookup e.code with
    | none => exact ⟨m, [e], by simp [hb], by simp⟩
    | some (BindingOutput.key tname) =>
      match hp : parse_key_name tname with
      | some T =>
        exact ⟨m, [⟨EV_KEY, T, e.value⟩], by simp [hb, hp], by simp⟩
      | none => exact ⟨m, [e], by simp [hb, hp], by simp⟩
    | some (BindingOutput.macroOut mname) =>
      match hm : m.macroDefs.lookup mname with
      | none => exact ⟨m, [e], by simp [hb, hm], by simp⟩
      | some d =>
        by_cases h1 : e.value = 1
        · obtain ⟨⟨eng, tasks⟩, hs⟩ := startMacro_isOk m.engine e.code d
          exact ⟨{ m with engine := eng }, [], by simp [hb, hm, h1, hs], by simp⟩
        · by_cases h0 : e.value = 0
          · exact ⟨{ m with engine := stopMacro m.engine e.code }, [],
              by simp [hb, hm, h1, h0], by simp⟩
          · exact ⟨m, [], by simp [hb, hm, h1, h0], by simp⟩

/-- C5: for a RepeatOnHold macro whose trigger already has a live timer
entry, `start_macro` is a no-op: the state is returned unchanged and no
task is spawned (with at most one `active` entry per trigger, this
bounds RepeatOnHold to one timer per trigger). -/
theorem startMacro_repeatOnHold_noop (s : MacroEngine) (t : Nat) (d : MacroDef)
    (hd : d.macroType = MacroType.repeatOnHold)
    (ha : s.active t = true) :
    startMacro s t d = .ok (s, []) := by
  simp [startMacro, hd, ha]

/-- Witness for C5: re-press of trigger 276 while its timer runs. -/
theorem startMacro_repeatOnHold_noop_witness :
    startMacro engineActive276 276 rapidDef = .ok (engineActive276, []) :=
  startMacro_repeatOnHold_noop engineActive276 276 rapidDef rfl (by decide)

/-- C6 (behaviour at the failing input): inside the body of a repeating
macro (`run_repeat_macro`, used for RepeatOnHold and Toggle), a
`Delay(ms)` action is skipped — it contributes no effect, in particular
no suspension — because the body runs through the blocking
`execute_action`; only `run_sequence_macro`'s async interpreter turns
`Delay(ms)` into an `ms`-millisecond sleep. -/
theorem repeatBody_delay_skipped :
    (∀ (ms : Nat) (actions : List MacroAction),
        repeatBodyEffects (MacroAction.delay ms :: actions) =
          repeatBodyEffects actions) ∧
    repeatBodyEffects [MacroAction.delay 5] = [] ∧
    sequenceEffects [MacroAction.delay 5] = [MacroEffect.sleep 5] := by
  refine ⟨fun ms actions => ?_, rfl, rfl⟩
  simp [repeatBodyEffects, executeAction]

/-- An event that `process_event` passes through unchanged: either not a
KEY event, or a KEY event whose code has no binding. -/
theorem processEvent_passthrough (m : EventMapper) (e : InputEvent)
    (h : e.eventType = EV_KEY → m.bindings.lookup e.code = none) :
    processEvent m e = .ok (m, [e]) := by
  by_cases hk : e.eventType = EV_KEY
  · simp [processEvent, hk, h hk]
  · simp [processEvent, hk]

/-- C2: a sequence of events containing no KEY event with a bound code
(non-KEY events and KEY events with unbound codes) is mapped to itself,
element for element, with the mapper state unchanged. -/
theorem processEvents_passthrough (m : EventMapper) (es : List InputEvent)
    (h : ∀ e ∈ es, e.eventType = EV_KEY → m.bindings.lookup e.code = none) :
    processEvents m es = .ok (m, es) := by
  induction es with
  | nil => rfl
  | cons e rest ih =>
    have h1 : processEvent m e = .ok (m, [e]) :=
      processEvent_passthrough m e (h e (List.mem_cons_self e rest))
    have h2 : processEvents m rest = .ok (m, rest) :=
      ih (fun x hx => h x (List.mem_cons_of_mem e hx))
    simp [processEvents, h1, h2]

/-- Witness for C2: a relative-motion event, a SYN event, and a KEY event
on the unbound code 273, against a mapper that binds only 275. -/
theorem processEvents_passthrough_witness :
    processEvents mapperKeyA [⟨2, 0, 5⟩, ⟨0, 0, 0⟩, ⟨EV_KEY, 273, 1⟩] =
      .ok (mapperKeyA, [⟨2, 0, 5⟩, ⟨0, 0, 0⟩, ⟨EV_KEY, 273, 1⟩]) :=
  processEvents_passthrough mapperKeyA [⟨2, 0, 5⟩, ⟨0, 0, 0⟩, ⟨EV_KEY, 273, 1⟩]
    (by decide)

/-- Parity of a successor flips the `mod-two` test. -/
theorem mod_two_succ_flip (n : Nat) : ((n + 1) % 2 == 1) = !(n % 2 == 1) := by
  rcases Nat.mod_two_eq_zero_or_one n with h | h <;> simp [Nat.add_mod, h]

/-- Core induction for C4: along any press/release history of a Toggle
trigger, starting from a state whose `active` and `toggle_state` agree
at the trigger, the timer entry tracks the parity of the presses. -/
theorem runTrigger_toggle_aux (d : MacroDef) (t : Nat)
    (hd : d.macroType = MacroType.toggle) :
    ∀ (evts : List TriggerEvent) (s : MacroEngine),
      s.active t = s.toggleState t →
      (runTrigger d t s evts).active t =
        ((s.toggleState t).xor (pressCount evts % 2 == 1)) := by
  intro evts
  induction evts with
  | nil =>
    intro s hinv
    simpa [runTrigger, pressCount] using hinv
  | cons ev rest ih =>
    intro s hinv
    have hrun : runTrigger d t s (ev :: rest) =
        runTrigger d t (triggerStep d t s ev) rest := rfl
    cases ev with
    | press =>
      have hcount : pressCount (TriggerEvent.press :: rest) = pressCount rest + 1 := by
        simp [pressCount, List.countP_cons]
      by_cases hts : s.toggleState t = true
      · have hstep : triggerStep d t s .press =
            { s with toggleState := setAt s.toggleState t false,
                     active := setAt s.active t false } := by
          simp [triggerStep, startMacroState, startMacro, hd, hts]
        have := ih (triggerStep d t s .press) (by simp [hstep, setAt])
        rw [hrun, this]
        simp [hstep, setAt, hts, hcount, mod_two_succ_flip]
      · have hts' : s.toggleState t = false := by simpa using hts
        have hstep : triggerStep d t s .press =
            { s with toggleState := setAt s.toggleState t true,
                     active := setAt s.active t true } := by
          simp [triggerStep, startMacroState, startMacro, hd, hts']
        have := ih (triggerStep d t s .press) (by simp [hstep, setAt])
        rw [hrun, this]
        simp [hstep, setAt, hts', hcount, mod_two_succ_flip]
    | release =>
      have hcount : pressCount (TriggerEvent.release :: rest) = pressCount rest := by
        simp [pressCount, List.countP_cons]
      by_cases hts : s.toggleState t = true
      · have hstep : triggerStep d t s .release = s := by
          simp [triggerStep, stopMacro, hts]
        rw [hrun, hstep, ih s hinv, hcount]
      · have hts' : s.toggleState t = false := by simpa using hts
        have ha : s.active t = false := hinv.trans hts'
        have hstep : triggerStep d t s .release =
            { s with active := setAt s.active t false } := by
          simp [triggerStep, stopMacro, hts']
        have := ih (triggerStep d t s .release) (by simp [hstep, setAt, hts'])
        rw [hrun, this]
        simp [hstep, hcount, hts']

/-- C4: starting from the fresh engine, after any interleaving of `N`
`start_macro` calls and arbitrary `stop_macro` (release) calls on a
Toggle-bound trigger, a timer entry is active for the trigger iff `N`
is odd — in particular releases never cancel an armed toggle's timer. -/
theorem toggleParity (d : MacroDef) (t : Nat) (evts : List TriggerEvent)
    (hd : d.macroType = MacroType.toggle) :
    ((runTrigger d t MacroEngine.new evts).active t = true) ↔
      Odd (pressCount evts) := by
  have h := runTrigger_toggle_aux d t hd evts MacroEngine.new rfl
  rw [h]
  simp [MacroEngine.new, Nat.odd_iff]

/-- Witness for C4: two presses with an interleaved release leave no
timer (N = 2 even); the theorem instance decides it. -/
theorem toggleParity_witness :
    ((runTrigger toggleDef 276 MacroEngine.new
        [TriggerEvent.press, TriggerEvent.release, TriggerEvent.press]).active 276 = true) ↔
      Odd (pressCount [TriggerEvent.press, TriggerEvent.release, TriggerEvent.press]) :=
  toggleParity toggleDef 276
    [TriggerEvent.press, TriggerEvent.release, TriggerEvent.press] rfl

/-- C10: the toggle/active invariant — every armed toggle has a live
timer entry — holds for the fresh engine and is preserved by every
`start_macro`, `stop_macro`, and `stop_all` call. -/
theorem engineInvariant :
    ToggleActiveInv MacroEngine.new ∧
    (∀ (s : MacroEngine) (t : Nat) (d : MacroDef) (s' : MacroEngine)
        (tasks : List SpawnedTask), ToggleActiveInv s →
        startMacro s t d = .ok (s', tasks) → ToggleActiveInv s') ∧
    (∀ (s : MacroEngine) (t : Nat), ToggleActiveInv s →
        ToggleActiveInv (stopMacro s t)) ∧
    (∀ s : MacroEngine, ToggleActiveInv s → ToggleActiveInv (stopAll s)) := by
  refine ⟨?_, ?_, ?_, ?_⟩
  · intro t h
    simp [MacroEngine.new] at h
  · intro s t d s' tasks hinv heq
    unfold startMacro at heq
    rcases hmt : d.macroType with _ | _ | _ <;> rw [hmt] at heq <;> dsimp only at heq
    · by_cases ha : s.active t = true
      · rw [if_pos ha] at heq
        obtain ⟨rfl, -⟩ := Prod.mk.injEq .. ▸ Except.ok.inj heq
        exact hinv
      · rw [if_neg ha] at heq
        obtain ⟨rfl, -⟩ := Prod.mk.injEq .. ▸ Except.ok.inj heq
        intro t' h'
        by_cases het : t' = t <;> simp [setAt, het, hinv t' h']
    · obtain ⟨rfl, -⟩ := Prod.mk.injEq .. ▸ Except.ok.inj heq
      exact hinv
    · by_cases hts : s.toggleState t = true
      · rw [if_pos hts] at heq
        obtain ⟨rfl, -⟩ := Prod.mk.injEq .. ▸ Except.ok.inj heq
        intro t' h'
        by_cases het : t' = t
        · simp [setAt, het] at h'
        · simp [setAt, het] at h' ⊢
          exact hinv t' h'
      · rw [if_neg hts] at heq
        obtain ⟨rfl, -⟩ := Prod.mk.injEq .. ▸ Except.ok.inj heq
        intro t' h'
        by_cases het : t' = t <;> simp [setAt, het] at h' ⊢
        exact hinv t' h'
  · intro s t hinv t' h'
    unfold stopMacro at h' ⊢
    by_cases hts : s.toggleState t = true
    · rw [if_pos hts] at h' ⊢
      exact hinv t' h'
    · rw [if_neg hts] at h' ⊢
      dsimp only at h'
      by_cases het : t' = t
      · subst het
        exact absurd h' (by simpa using hts)
      · simp [setAt, het]
        exact hinv t' h'
  · intro s _ t' h'
    simp [stopAll] at h'

/-- Witness for C10: the invariant propagated from the fresh engine
through a `stop_macro` call, by the theorem's own conjuncts. -/
theorem engineInvariant_witness :
    ToggleActiveInv (stopMacro MacroEngine.new 272) :=
  engineInvariant.2.2.1 MacroEngine.new 272 engineInvariant.1

/-! ### Association-map lemmas for the binding-map construction (C8) -/

/-- Lookup after an insert-or-replace. -/
theorem lookup_assocInsert {κ β : Type} [BEq κ] [LawfulBEq κ] [DecidableEq κ]
    (k k' : κ) (v : β) (m : List (κ × β)) :
    (assocInsert k v m).lookup k' = if k' = k then some v else m.lookup k' := by
  induction m with
  | nil =>
    by_cases h : k' = k
    · subst h
      simp [assocInsert, List.lookup]
    · have hb : (k' == k) = false := beq_eq_false_iff_ne.mpr h
      simp [assocInsert, List.lookup, hb, h]
  | cons q rest ih =>
    obtain ⟨a, b⟩ := q
    by_cases hak : a = k
    · subst hak
      by_cases h : k' = a
      · subst h
        simp [assocInsert, List.lookup]
      · have hb : (k' == a) = false := beq_eq_false_iff_ne.mpr h
        simp [assocInsert, List.lookup, hb, h]
    · by_cases h : k' = a
      · have hb : (k' == a) = true := beq_iff_eq.mpr h
        have hkk : ¬k' = k := fun he => hak (h.symm.trans he)
        simp [assocInsert, hak, List.lookup, hb, hkk]
      · have hb : (k' == a) = false := beq_eq_false_iff_ne.mpr h
        simp [assocInsert, hak, List.lookup, hb, ih]

/-- Membership after an insert-or-replace. -/
theorem mem_assocInsert {κ β : Type} [DecidableEq κ]
    {q : κ × β} (k : κ) (v : β) : ∀ {m : List (κ × β)},
    q ∈ assocInsert k v m → q = (k, v) ∨ q ∈ m := by
  intro m
  induction m with
  | nil =>
    intro h
    simp [assocInsert] at h
    exact Or.inl h
  | cons p rest ih =>
    obtain ⟨a, b⟩ := p
    intro h
    by_cases hak : a = k
    · subst hak
      simp only [assocInsert, if_pos rfl] at h
      rcases List.mem_cons.mp h with h' | h'
      · exact Or.inl h'
      · exact Or.inr (List.mem_cons_of_mem _ h')
    · simp only [assocInsert, if_neg hak] at h
      rcases List.mem_cons.mp h with h' | h'
      · exact Or.inr (h' ▸ List.mem_cons_self _ _)
      · rcases ih h' with h'' | h''
        · exact Or.inl h''
        · exact Or.inr (List.mem_cons_of_mem _ h'')

/-- The key list after an insert-or-replace. -/
theorem keys_assocInsert {κ β : Type} [DecidableEq κ] (k : κ) (v : β) :
    ∀ m : List (κ × β),
      (assocInsert k v m).map Prod.fst =
        if k ∈ m.map Prod.fst then m.map Prod.fst
        else m.map Prod.fst ++ [k] := by
  intro m
  induction m with
  | nil => simp [assocInsert]
  | cons p rest ih =>
    obtain ⟨a, b⟩ := p
    by_cases hak : a = k
    · subst hak
      simp [assocInsert]
    · simp only [assocInsert, if_neg hak, List.map_cons, ih]
      by_cases hk : k ∈ rest.map Prod.fst
      · simp [hk, Ne.symm hak]
      · simp [hk, Ne.symm hak]

/-- Insert-or-replace preserves key distinctness. -/
theorem nodupKeys_assocInsert {κ β : Type} [DecidableEq κ] (k : κ) (v : β)
    (m : List (κ × β)) (h : (m.map Prod.fst).Nodup) :
    ((assocInsert k v m).map Prod.fst).Nodup := by
  rw [keys_assocInsert]
  by_cases hk : k ∈ m.map Prod.fst
  · simpa [hk]
  · simp [hk, List.nodup_append, h]

/-- A successful lookup names an entry of the list. -/
theorem mem_of_lookup_eq_some {κ β : Type} [BEq κ] [LawfulBEq κ]
    {k : κ} {v : β} : ∀ {m : List (κ × β)},
    m.lookup k = some v → (k, v) ∈ m := by
  intro m
  induction m with
  | nil => intro h; simp [List.lookup] at h
  | cons p rest ih =>
    obtain ⟨a, b⟩ := p
    intro h
    by_cases hk : k = a
    · subst hk
      simp [List.lookup] at h
      simp [h]
    · have hb : (k == a) = false := beq_eq_false_iff_ne.mpr hk
      simp [List.lookup, hb] at h
      exact List.mem_cons_of_mem _ (ih h)

/-- With distinct keys, lookup finds exactly the value of a member. -/
theorem lookup_of_mem_nodupKeys {κ β : Type} [BEq κ] [LawfulBEq κ]
    {k : κ} {v : β} : ∀ {m : List (κ × β)},
    (m.map Prod.fst).Nodup → (k, v) ∈ m → m.lookup k = some v := by
  intro m
  induction m with
  | nil => intro _ h; cases h
  | cons p rest ih =>
    obtain ⟨a, b⟩ := p
    intro hnod hmem
    rcases List.mem_cons.mp hmem with h | h
    · obtain ⟨rfl, rfl⟩ := Prod.mk.injEq .. ▸ h
      simp [List.lookup]
    · have hk : k ∈ rest.map Prod.fst := List.mem_map_of_mem Prod.fst h
      have hpair :=
        List.nodup_cons.mp (show (a :: rest.map Prod.fst).Nodup from hnod)
      have hka : k ≠ a := fun he => hpair.1 (he ▸ hk)
      have hb : (k == a) = false := beq_eq_false_iff_ne.mpr hka
      simp [List.lookup, hb]
      exact ih hpair.2 h

/-- Lookup through `build_binding_map`'s fold: the last binding with the
given input name wins. -/
theorem bindingsFold_lookup (bs : List Binding) :
    ∀ (m : List (String × BindingOutput)) (k : String),
      (bs.foldl (fun m b => assocInsert b.input b.output m) m).lookup k =
        match (bs.filter fun b => b.input == k).getLast? with
        | some b => some b.output
        | none => m.lookup k := by
  induction bs using List.reverseRecOn with
  | nil => intro m k; simp
  | append_singleton bs b ih =>
    intro m k
    rw [List.foldl_append, List.foldl_cons, List.foldl_nil, lookup_assocInsert,
      List.filter_append]
    by_cases hkb : k = b.input
    · subst hkb
      simp [List.getLast?_concat]
    · have hpred : (b.input == k) = false := by
        simp [beq_iff_eq]
        exact Ne.symm hkb
      simp [hkb, hpred, ih]

/-- Every entry of `build_binding_map`'s fold is keyed by some binding's
input name (or was already in the accumulator). -/
theorem bindingsFold_mem (bs : List Binding) :
    ∀ (m : List (String × BindingOutput)) (q : String × BindingOutput),
      q ∈ bs.foldl (fun m b => assocInsert b.input b.output m) m →
      q ∈ m ∨ ∃ b ∈ bs, q.1 = b.input := by
  induction bs with
  | nil => intro m q h; exact Or.inl h
  | cons b rest ih =>
    intro m q h
    rcases ih _ q h with h' | ⟨b', hb', he⟩
    · rcases mem_assocInsert _ _ h' with h'' | h''
      · exact Or.inr ⟨b, List.mem_cons_self _ _, by simp [h'']⟩
      · exact Or.inl h''
    · exact Or.inr ⟨b', List.mem_cons_of_mem _ hb', he⟩

/-- `build_binding_map`'s fold keeps the keys distinct. -/
theorem bindingsFold_nodupKeys (bs : List Binding) :
    ∀ m : List (String × BindingOutput), (m.map Prod.fst).Nodup →
      ((bs.foldl (fun m b => assocInsert b.input b.output m) m).map Prod.fst).Nodup := by
  induction bs with
  | nil => intro m h; exact h
  | cons b rest ih =>
    intro m h
    exact ih _ (nodupKeys_assocInsert _ _ _ h)

/-- Lookup through `load_config`'s fold over an enumeration of the
name-keyed map: the last enumerated entry whose name parses to the code
wins. -/
theorem loadBindingsAux_lookup (entries : List (String × BindingOutput)) (c : Nat) :
    ∀ m : List (Nat × BindingOutput),
      ((entries.foldl
          (fun m p =>
            match parse_key_name p.1 with
            | some k => assocInsert k p.2 m
            | none => m) m).lookup c) =
        match (entries.filter fun q => parse_key_name q.1 == some c).getLast? with
        | some q => some q.2
        | none => m.lookup c := by
  induction entries using List.reverseRecOn with
  | nil => intro m; simp
  | append_singleton es q ih =>
    intro m
    rw [List.foldl_append, List.foldl_cons, List.foldl_nil, List.filter_append]
    rcases hpq : parse_key_name q.1 with _ | k
    · have hpred : (parse_key_name q.1 == some c) = false := by simp [hpq]
      simp [hpq, hpred, ih]
    · by_cases hkc : k = c
      · subst hkc
        have hpred : (parse_key_name q.1 == some k) = true := by simp [hpq]
        simp [hpq, hpred, lookup_assocInsert, List.getLast?_concat]
      · have hpred : (parse_key_name q.1 == some c) = false := by
          simp [hpq, hkc]
        simp [hpq, hpred, hkc, lookup_assocInsert, Ne.symm hkc, ih]

/-- C8 (counterexample): with two distinct input names both resolving to
code 272, there is an admissible iteration order of the name-keyed
binding map under which `load_config` resolves 272 to the output of the
EARLIER binding — last-wins by trigger code fails. -/
theorem lastWins_counterexample :
    enumDup.Perm cfgDup.build_binding_map ∧
    parse_key_name "BTN_MOUSE" = some 272 ∧
    parse_key_name "BTN_LEFT" = some 272 ∧
    (loadBindings enumDup).lookup 272 = some (BindingOutput.key "KEY_A") ∧
    BindingOutput.key "KEY_A" ≠ BindingOutput.key "KEY_B" := by
  refine ⟨?_, by decide, by decide, by decide, by decide⟩
  have hmap : cfgDup.build_binding_map =
      [("BTN_MOUSE", BindingOutput.key "KEY_A"),
       ("BTN_LEFT", BindingOutput.key "KEY_B")] := by decide
  rw [hmap]
  exact List.Perm.swap _ _ _

/-- C8 (amended): when every binding of the active profile whose input
name resolves to code `c` carries the same input string `s`, the
code-keyed binding map built by `load_config` maps `c` to the output of
the LAST such binding in the profile's list, under every iteration
order of the name-keyed map. -/
theorem lastWins_sameName (cfg : Config) (p : Profile) (c : Nat) (s : String)
    (hp : cfg.getActiveProfile = some p)
    (hs : ∀ b ∈ p.bindings, parse_key_name b.input = some c → b.input = s)
    (hex : ∃ b ∈ p.bindings, parse_key_name b.input = some c)
    (e : List (String × BindingOutput)) (he : e.Perm cfg.build_binding_map) :
    (loadBindings e).lookup c =
      ((p.bindings.filter fun b => b.input == s).getLast?).map Binding.output := by
  obtain ⟨b₀, hb₀, hpb₀⟩ := hex
  have hb₀s : b₀.input = s := hs b₀ hb₀ hpb₀
  have hps : parse_key_name s = some c := hb₀s ▸ hpb₀
  have hbmap : cfg.build_binding_map =
      p.bindings.foldl (fun m b => assocInsert b.input b.output m) [] := by
    unfold Config.build_binding_map
    rw [hp]
  -- The filtered binding list is nonempty, so it has a last element.
  have hfilter_ne : (p.bindings.filter fun b => b.input == s) ≠ [] :=
    List.ne_nil_of_mem (List.mem_filter.mpr ⟨hb₀, by simp [hb₀s]⟩)
  rcases hgl : (p.bindings.filter fun b => b.input == s).getLast? with _ | bl
  · exact absurd (List.getLast?_eq_none_iff.mp hgl) hfilter_ne
  have hbl_mem : bl ∈ p.bindings.filter fun b => b.input == s := by
    have := List.mem_getLast?_eq_getLast (x := bl) hgl
    obtain ⟨hne, hble⟩ := this
    exact hble ▸ List.getLast_mem hne
  have hbl_s : bl.input = s := by
    have := (List.mem_filter.mp hbl_mem).2
    simpa using this
  -- The name-keyed map sends s to the last such binding's output.
  have hlk : cfg.build_binding_map.lookup s = some bl.output := by
    rw [hbmap, bindingsFold_lookup, hgl]
  have hmem : (s, bl.output) ∈ cfg.build_binding_map :=
    mem_of_lookup_eq_some hlk
  have hnod : (cfg.build_binding_map.map Prod.fst).Nodup := by
    rw [hbmap]
    exact bindingsFold_nodupKeys p.bindings [] (by simp)
  -- The entries whose name parses to c are exactly that one entry.
  have hmemf : (s, bl.output) ∈
      cfg.build_binding_map.filter fun q => parse_key_name q.1 == some c :=
    List.mem_filter.mpr ⟨hmem, by simp [hps]⟩
  have hall : ∀ q ∈ cfg.build_binding_map.filter
      (fun q => parse_key_name q.1 == some c), q = (s, bl.output) := by
    intro q hq
    obtain ⟨hqmem, hqpc⟩ := List.mem_filter.mp hq
    have hq1 : parse_key_name q.1 = some c := by simpa using hqpc
    rcases bindingsFold_mem p.bindings [] q (hbmap ▸ hqmem) with h | ⟨b, hbmem, hq1b⟩
    · cases h
    · have hbs : b.input = s := hs b hbmem (hq1b ▸ hq1)
      have hq1s : q.1 = s := hq1b.trans hbs
      have hlkq : cfg.build_binding_map.lookup q.1 = some q.2 :=
        lookup_of_mem_nodupKeys hnod (by simpa using hqmem)
      rw [hq1s, hlk] at hlkq
      have : bl.output = q.2 := Option.some.inj hlkq
      exact Prod.ext hq1s this.symm
  have hfeq : (cfg.build_binding_map.filter
      fun q => parse_key_name q.1 == some c) = [(s, bl.output)] := by
    have hnodf : ((cfg.build_binding_map.filter
        fun q => parse_key_name q.1 == some c).map Prod.fst).Nodup :=
      hnod.sublist ((List.filter_sublist _).map Prod.fst)
    rcases hfp : cfg.build_binding_map.filter
        (fun q => parse_key_name q.1 == some c) with _ | ⟨x, rest⟩
    · rw [hfp] at hmemf
      cases hmemf
    · have hx : x = (s, bl.output) := hall x (hfp ▸ List.mem_cons_self _ _)
      rcases rest with _ | ⟨y, r⟩
      · rw [hfp, hx]
      · exfalso
        have hy : y = (s, bl.output) :=
          hall y (hfp ▸ List.mem_cons_of_mem _ (List.mem_cons_self _ _))
        rw [hfp, hx, hy] at hnodf
        simp at hnodf
  -- Transfer along the enumeration's permutation and conclude.
  have hef : (e.filter fun q => parse_key_name q.1 == some c) = [(s, bl.output)] :=
    List.perm_singleton.mp (hfeq ▸ he.filter _)
  have := loadBindingsAux_lookup e c []
  rw [loadBindings]
  rw [this, hef]
  simp [hgl]

/-- Witness for C8 (amended): the same name `BTN_SIDE` bound twice; under
the identity enumeration the map sends 275 to the later output. -/
theorem lastWins_sameName_witness :
    (loadBindings cfgSame.build_binding_map).lookup 275 =
      ((profSame.bindings.filter fun b => b.input == "BTN_SIDE").getLast?).map
        Binding.output :=
  lastWins_sameName cfgSame profSame 275 "BTN_SIDE" (by decide) (by decide)
    (by decide) cfgSame.build_binding_map (List.Perm.refl _)

end MouseMapper
